import Mathlib

/-!
Verification model of the `artifact` subcommand core of the `boh` repository
(`src/artifact.rs`).  The Rust source is shallowly embedded: bytes are
`List Nat` (each element a `u8` value), the SHA-256 digest of the `ring`
crate is implemented directly from FIPS 180-4, the network is a function
from requests to responses, and every operation returns its result together
with the ordered trace of network requests it issued.
-/

set_option maxRecDepth 100000

deriving instance DecidableEq for Except

namespace Boh

/-! ## SHA-256 (model of `ring::digest::digest(&ring::digest::SHA256, data)`) -/

/-- Truncation to a 32-bit word. -/
def w32 (n : Nat) : Nat := n % 4294967296

/-- Right rotation of a 32-bit word by `r` bits. -/
def rotr (n r : Nat) : Nat := w32 ((n >>> r) ||| (n <<< (32 - r)))

/-- Bitwise complement of a 32-bit word. -/
def not32 (n : Nat) : Nat := n ^^^ 4294967295

/-- XOR of three words. -/
def xor3 (x y z : Nat) : Nat := x ^^^ y ^^^ z

def ch32 (x y z : Nat) : Nat := (x &&& y) ^^^ (not32 x &&& z)

def maj32 (x y z : Nat) : Nat := xor3 (x &&& y) (x &&& z) (y &&& z)

def bigSigma0 (x : Nat) : Nat := xor3 (rotr x 2) (rotr x 13) (rotr x 22)

def bigSigma1 (x : Nat) : Nat := xor3 (rotr x 6) (rotr x 11) (rotr x 25)

def smallSigma0 (x : Nat) : Nat := xor3 (rotr x 7) (rotr x 18) (x >>> 3)

def smallSigma1 (x : Nat) : Nat := xor3 (rotr x 17) (rotr x 19) (x >>> 10)

/-- The 64 SHA-256 round constants of FIPS 180-4, in decimal. -/
def sha256K : List Nat :=
  [1116352408, 1899447441, 3049323471, 3921009573, 961987163, 1508970993,
   2453635748, 2870763221, 3624381080, 310598401, 607225278, 1426881987,
   1925078388, 2162078206, 2614888103, 3248222580, 3835390401, 4022224774,
   264347078, 604807628, 770255983, 1249150122, 1555081692, 1996064986,
   2554220882, 2821834349, 2952996808, 3210313671, 3336571891, 3584528711,
   113926993, 338241895, 666307205, 773529912, 1294757372, 1396182291,
   1695183700, 1986661051, 2177026350, 2456956037, 2730485921, 2820302411,
   3259730800, 3345764771, 3516065817, 3600352804, 4094571909, 275423344,
   430227734, 506948616, 659060556, 883997877, 958139571, 1322822218,
   1537002063, 1747873779, 1955562222, 2024104815, 2227730452, 2361852424,
   2428436474, 2756734187, 3204031479, 3329325298]

/-- Working state of the compression function: eight 32-bit words. -/
structure Sha256State where
  a : Nat
  b : Nat
  c : Nat
  d : Nat
  e : Nat
  f : Nat
  g : Nat
  h : Nat

/-- Initial hash value of SHA-256. -/
def sha256Init : Sha256State :=
  ⟨1779033703, 3144134277, 1013904242, 2773480762, 1359893119, 2600822924, 528734635, 1541459225⟩

/-- One round of the compression function; `kw` is the sum of the round
constant and the scheduled message word. -/
def sha256Round (st : Sha256State) (kw : Nat) : Sha256State :=
  let t1 := w32 (st.h + bigSigma1 st.e + ch32 st.e st.f st.g + kw)
  let t2 := w32 (bigSigma0 st.a + maj32 st.a st.b st.c)
  ⟨w32 (t1 + t2), st.a, st.b, st.c, w32 (st.d + t1), st.e, st.f, st.g⟩

/-- Extend a 16-word block to the full 64-word message schedule by appending
`n` further words. -/
def sha256Extend : Nat → List Nat → List Nat
  | 0, ws => ws
  | n + 1, ws =>
      let l := ws.length
      let w := w32 (smallSigma1 (ws.getD (l - 2) 0) + ws.getD (l - 7) 0 +
                    smallSigma0 (ws.getD (l - 15) 0) + ws.getD (l - 16) 0)
      sha256Extend n (ws ++ [w])

/-- Pointwise 32-bit addition of two states. -/
def sha256Add (x y : Sha256State) : Sha256State :=
  ⟨w32 (x.a + y.a), w32 (x.b + y.b), w32 (x.c + y.c), w32 (x.d + y.d),
   w32 (x.e + y.e), w32 (x.f + y.f), w32 (x.g + y.g), w32 (x.h + y.h)⟩

/-- Process one 512-bit block (given as 16 big-endian 32-bit words). -/
def sha256Block (st : Sha256State) (ws : List Nat) : Sha256State :=
  let sched := sha256Extend 48 ws
  sha256Add st ((sha256K.zip sched).foldl (fun s p => sha256Round s (p.1 + p.2)) st)

/-- Group a byte list into big-endian 32-bit words. -/
def toWords : List Nat → List Nat
  | b0 :: b1 :: b2 :: b3 :: rest =>
      (b0 * 16777216 + b1 * 65536 + b2 * 256 + b3) :: toWords rest
  | _ => []

/-- Big-endian 8-byte encoding of a natural number (the message bit length). -/
def be64 (n : Nat) : List Nat :=
  [n / 72057594037927936 % 256, n / 281474976710656 % 256, n / 1099511627776 % 256,
   n / 4294967296 % 256, n / 16777216 % 256, n / 65536 % 256, n / 256 % 256, n % 256]

/-- FIPS 180-4 padding: a `0x80` byte, zeros to 56 mod 64, then the bit length. -/
def sha256Pad (msg : List Nat) : List Nat :=
  msg ++ [128] ++ List.replicate ((119 - msg.length % 64) % 64) 0 ++ be64 (8 * msg.length)

/-- Split a byte list into successive 64-byte chunks (the fuel, set to the
list length by the wrapper below, makes the recursion structural). -/
def chunks64Aux : Nat → List Nat → List (List Nat)
  | _, [] => []
  | 0, _ :: _ => []
  | fuel + 1, x :: xs => (x :: xs.take 63) :: chunks64Aux fuel (xs.drop 63)

/-- Split a byte list into successive 64-byte chunks. -/
def chunks64 (l : List Nat) : List (List Nat) := chunks64Aux l.length l

/-- Big-endian 4-byte decomposition of a 32-bit word. -/
def be4 (w : Nat) : List Nat :=
  [w / 16777216 % 256, w / 65536 % 256, w / 256 % 256, w % 256]

/-- The 32 digest bytes of a final state. -/
def sha256Bytes (st : Sha256State) : List Nat :=
  be4 st.a ++ be4 st.b ++ be4 st.c ++ be4 st.d ++ be4 st.e ++ be4 st.f ++ be4 st.g ++ be4 st.h

/-- SHA-256 of a byte sequence.  Inputs are reduced mod 256 so that the Lean
function is total on `List Nat` while agreeing with its `u8` domain. -/
def sha256 (msg : List Nat) : List Nat :=
  let data := msg.map (· % 256)
  sha256Bytes ((chunks64 (sha256Pad data)).foldl (fun st blk => sha256Block st (toWords blk)) sha256Init)

/-- Lowercase hexadecimal digit, as produced by Rust's `{b:02x}` formatting. -/
def hexDigit (n : Nat) : Char :=
  if n < 10 then Char.ofNat (48 + n) else Char.ofNat (87 + n)

/-- Two lowercase hex characters for one byte (`write!("{b:02x}")`). -/
def byteToHex (b : Nat) : List Char := [hexDigit (b / 16), hexDigit (b % 16)]

/-- Model of `calc_digest` in `src/artifact.rs`: the string `sha256:`
followed by the 64 hex characters of the SHA-256 digest of the data. -/
def calc_digest (data : List Nat) : String :=
  "sha256:" ++ String.mk ((sha256 data).flatMap byteToHex)

/-- Characters the digest tail may contain: `0`-`9` and `a`-`f`. -/
def isLowerHexDigit (c : Char) : Bool :=
  (48 ≤ c.toNat && c.toNat ≤ 57) || (97 ≤ c.toNat && c.toNat ≤ 102)

/-! ## UTF-8 (model of `String::from_utf8` and of byte-string literals) -/

/-- Continuation byte test: `0x80 ≤ b ≤ 0xBF`. -/
def isCont (b : Nat) : Bool := 128 ≤ b && b ≤ 191

/-- Strict UTF-8 decoding with fuel, rejecting overlong forms, surrogates and
code points above `0x10FFFF`, exactly as Rust's `String::from_utf8` does. -/
def utf8DecodeAux : Nat → List Nat → Option (List Char)
  | _, [] => some []
  | 0, _ :: _ => none
  | fuel + 1, b :: rest =>
    if b < 128 then
      (utf8DecodeAux fuel rest).map (Char.ofNat b :: ·)
    else if 194 ≤ b && b ≤ 223 then
      match rest with
      | c1 :: rest1 =>
        if isCont c1 then
          (utf8DecodeAux fuel rest1).map (Char.ofNat ((b - 192) * 64 + (c1 - 128)) :: ·)
        else none
      | [] => none
    else if 224 ≤ b && b ≤ 239 then
      match rest with
      | c1 :: c2 :: rest2 =>
        let ok1 : Bool :=
          if b = 224 then 160 ≤ c1 && c1 ≤ 191
          else if b = 237 then 128 ≤ c1 && c1 ≤ 159
          else isCont c1
        if ok1 && isCont c2 then
          (utf8DecodeAux fuel rest2).map
            (Char.ofNat ((b - 224) * 4096 + (c1 - 128) * 64 + (c2 - 128)) :: ·)
        else none
      | _ => none
    else if 240 ≤ b && b ≤ 244 then
      match rest with
      | c1 :: c2 :: c3 :: rest3 =>
        let ok1 : Bool :=
          if b = 240 then 144 ≤ c1 && c1 ≤ 191
          else if b = 244 then 128 ≤ c1 && c1 ≤ 143
          else isCont c1
        if ok1 && isCont c2 && isCont c3 then
          (utf8DecodeAux fuel rest3).map
            (Char.ofNat ((b - 240) * 262144 + (c1 - 128) * 4096 + (c2 - 128) * 64 + (c3 - 128)) :: ·)
        else none
      | _ => none
    else none

/-- Model of `String::from_utf8(bytes)`: `some` of the decoded string when the
bytes are valid UTF-8, `none` otherwise. -/
def string_from_utf8 (bs : List Nat) : Option String :=
  (utf8DecodeAux bs.length bs).map String.mk

/-- UTF-8 encoding of one character. -/
def charToUtf8 (c : Char) : List Nat :=
  let n := c.toNat
  if n < 128 then [n]
  else if n < 2048 then [192 + n / 64, 128 + n % 64]
  else if n < 65536 then [224 + n / 4096, 128 + n / 64 % 64, 128 + n % 64]
  else [240 + n / 262144, 128 + n / 4096 % 64, 128 + n / 64 % 64, 128 + n % 64]

/-- UTF-8 bytes of a string (how Rust's `String`/`str` data is laid out; used
to build concrete byte sequences and serialized request bodies). -/
def strToBytes (s : String) : List Nat := s.toList.flatMap charToUtf8

/-! ## JSON (model of `serde_json`) -/

/-- JSON documents.  Numbers keep their raw lexeme: no field of the embedded
data model reads a numeric value, so no numeric interpretation is needed. -/
inductive Json where
  | null : Json
  | bool : Bool → Json
  | num : String → Json
  | str : String → Json
  | arr : List Json → Json
  | obj : List (String × Json) → Json

/-- The character `{`. -/
def lbraceChar : Char := Char.ofNat 123

/-- The character `}`. -/
def rbraceChar : Char := Char.ofNat 125

/-- Skip JSON whitespace. -/
def skipWs : List Char → List Char
  | [] => []
  | c :: rest =>
    if c = ' ' || c = '\t' || c = '\n' || c = '\r' then skipWs rest else c :: rest

/-- Value of one hexadecimal digit. -/
def hexVal (c : Char) : Option Nat :=
  if 48 ≤ c.toNat && c.toNat ≤ 57 then some (c.toNat - 48)
  else if 97 ≤ c.toNat && c.toNat ≤ 102 then some (c.toNat - 87)
  else if 65 ≤ c.toNat && c.toNat ≤ 70 then some (c.toNat - 55)
  else none

/-- Parse exactly four hexadecimal digits. -/
def parseHex4 : List Char → Option (Nat × List Char)
  | c1 :: c2 :: c3 :: c4 :: rest =>
    match hexVal c1, hexVal c2, hexVal c3, hexVal c4 with
    | some h1, some h2, some h3, some h4 => some (h1 * 4096 + h2 * 256 + h3 * 16 + h4, rest)
    | _, _, _, _ => none
  | _ => none

/-- Parse the characters of a JSON string after its opening quote, handling
escapes (including surrogate pairs) and rejecting unescaped control
characters and lone surrogates, as `serde_json` does. -/
def parseStringChars : Nat → List Char → Option (List Char × List Char)
  | 0, _ => none
  | _, [] => none
  | fuel + 1, c :: rest =>
    if c = '"' then some ([], rest)
    else if c = '\\' then
      match rest with
      | [] => none
      | e :: rest1 =>
        if e = '"' then (parseStringChars fuel rest1).map (fun p => ('"' :: p.1, p.2))
        else if e = '\\' then (parseStringChars fuel rest1).map (fun p => ('\\' :: p.1, p.2))
        else if e = '/' then (parseStringChars fuel rest1).map (fun p => ('/' :: p.1, p.2))
        else if e = 'b' then (parseStringChars fuel rest1).map (fun p => (Char.ofNat 8 :: p.1, p.2))
        else if e = 'f' then (parseStringChars fuel rest1).map (fun p => (Char.ofNat 12 :: p.1, p.2))
        else if e = 'n' then (parseStringChars fuel rest1).map (fun p => ('\n' :: p.1, p.2))
        else if e = 'r' then (parseStringChars fuel rest1).map (fun p => ('\r' :: p.1, p.2))
        else if e = 't' then (parseStringChars fuel rest1).map (fun p => ('\t' :: p.1, p.2))
        else if e = 'u' then
          match parseHex4 rest1 with
          | none => none
          | some (n, rest2) =>
            if 55296 ≤ n && n ≤ 56319 then
              match rest2 with
              | '\\' :: 'u' :: rest3 =>
                match parseHex4 rest3 with
                | none => none
                | some (lo, rest4) =>
                  if 56320 ≤ lo && lo ≤ 57343 then
                    (parseStringChars fuel rest4).map (fun p =>
                      (Char.ofNat (65536 + (n - 55296) * 1024 + (lo - 56320)) :: p.1, p.2))
                  else none
              | _ => none
            else if 56320 ≤ n && n ≤ 57343 then none
            else (parseStringChars fuel rest2).map (fun p => (Char.ofNat n :: p.1, p.2))
        else none
    else if c.toNat < 32 then none
    else (parseStringChars fuel rest).map (fun p => (c :: p.1, p.2))

/-- Test for an ASCII digit. -/
def isDigitChar (c : Char) : Bool := 48 ≤ c.toNat && c.toNat ≤ 57

/-- Parse a JSON number, returning its raw lexeme. -/
def parseNumberLexeme (cs : List Char) : Option (String × List Char) :=
  let (sign, cs1) := match cs with
    | '-' :: rest => (['-'], rest)
    | _ => (([] : List Char), cs)
  match cs1 with
  | [] => none
  | c :: rest =>
    if c = '0' then
      let (frac, rest2) := afterInt rest
      (frac.map (fun f => (String.mk (sign ++ ['0'] ++ f), rest2)))
    else if isDigitChar c then
      let (ds, rest1) := rest.span isDigitChar
      let (frac, rest2) := afterInt rest1
      (frac.map (fun f => (String.mk (sign ++ (c :: ds) ++ f), rest2)))
    else none
where
  /-- Parse the optional fraction and exponent following the integer part. -/
  afterInt (cs : List Char) : Option (List Char) × List Char :=
    let (fr, cs1) := match cs with
      | '.' :: rest =>
        match rest.span isDigitChar with
        | ([], _) => (none, cs)
        | (ds, rest1) => (some ('.' :: ds), rest1)
      | _ => (some [], cs)
    match fr with
    | none => (none, cs)
    | some f =>
      match cs1 with
      | 'e' :: rest | 'E' :: rest =>
        let (sg, rest1) := match rest with
          | '+' :: r => (['+'], r)
          | '-' :: r => (['-'], r)
          | _ => (([] : List Char), rest)
        match rest1.span isDigitChar with
        | ([], _) => (none, cs1)
        | (ds, rest2) => (some (f ++ ('e' :: sg ++ ds)), rest2)
      | _ => (some f, cs1)

mutual

/-- Parse one JSON value.  Fuel decreases at every recursive call; the
top-level entry point supplies enough fuel for any input. -/
def parseValue : Nat → List Char → Option (Json × List Char)
  | 0, _ => none
  | fuel + 1, cs =>
    match skipWs cs with
    | [] => none
    | c :: rest =>
      if c = 'n' then
        match rest with
        | 'u' :: 'l' :: 'l' :: r => some (.null, r)
        | _ => none
      else if c = 't' then
        match rest with
        | 'r' :: 'u' :: 'e' :: r => some (.bool true, r)
        | _ => none
      else if c = 'f' then
        match rest with
        | 'a' :: 'l' :: 's' :: 'e' :: r => some (.bool false, r)
        | _ => none
      else if c = '"' then
        (parseStringChars (rest.length + 1) rest).map (fun p => (.str (String.mk p.1), p.2))
      else if c = lbraceChar then
        match skipWs rest with
        | [] => none
        | c2 :: r2 =>
          if c2 = rbraceChar then some (.obj [], r2)
          else (parseMembers fuel (c2 :: r2)).map (fun p => (.obj p.1, p.2))
      else if c = '[' then
        match skipWs rest with
        | [] => none
        | c2 :: r2 =>
          if c2 = ']' then some (.arr [], r2)
          else (parseElems fuel (c2 :: r2)).map (fun p => (.arr p.1, p.2))
      else (parseNumberLexeme (c :: rest)).map (fun p => (.num p.1, p.2))

/-- Parse the comma-separated elements of a non-empty array, up to `]`. -/
def parseElems : Nat → List Char → Option (List Json × List Char)
  | 0, _ => none
  | fuel + 1, cs =>
    match parseValue fuel cs with
    | none => none
    | some (v, r) =>
      match skipWs r with
      | ',' :: r2 => (parseElems fuel r2).map (fun p => (v :: p.1, p.2))
      | ']' :: r2 => some ([v], r2)
      | _ => none

/-- Parse the members of a non-empty object, up to `}`. -/
def parseMembers : Nat → List Char → Option (List (String × Json) × List Char)
  | 0, _ => none
  | fuel + 1, cs =>
    match skipWs cs with
    | '"' :: r =>
      match parseStringChars (r.length + 1) r with
      | none => none
      | some (kcs, r1) =>
        match skipWs r1 with
        | ':' :: r2 =>
          match parseValue fuel r2 with
          | none => none
          | some (v, r3) =>
            match skipWs r3 with
            | [] => none
            | c :: r4 =>
              if c = ',' then (parseMembers fuel r4).map (fun p => ((String.mk kcs, v) :: p.1, p.2))
              else if c = rbraceChar then some ([(String.mk kcs, v)], r4)
              else none
        | _ => none
    | _ => none

end

/-- Parse a complete JSON document: one value, then only whitespace. -/
def json_parse (cs : List Char) : Option Json :=
  match parseValue (2 * cs.length + 8) cs with
  | some (v, rest) => if skipWs rest = [] then some v else none
  | none => none

/-- Model of `serde_json` reading from a byte slice: the bytes must be valid
UTF-8 and form exactly one JSON document. -/
def json_from_slice (bs : List Nat) : Option Json :=
  (string_from_utf8 bs).bind (fun s => json_parse s.toList)

/-! ## The deserialized structures of `src/artifact.rs` -/

/-- Rust `struct OciManifestConfigRef { digest: String }`. -/
structure OciManifestConfigRef where
  digest : String
deriving DecidableEq

/-- Rust `struct OciManifest { config: OciManifestConfigRef }`. -/
structure OciManifest where
  config : OciManifestConfigRef
deriving DecidableEq

/-- Rust `struct OciConfig { architecture, os, variant: Option<String> }`,
with `#[serde(default)]` on `variant`. -/
structure OciConfig where
  architecture : String
  os : String
  variant : Option String
deriving DecidableEq

/-- Derived-`Deserialize` field access: absent field is `none`; a duplicated
field is an error, as in `serde`. -/
def getField (fields : List (String × Json)) (k : String) : Except String (Option Json) :=
  match fields.filter (fun p => p.1 == k) with
  | [] => .ok none
  | [p] => .ok (some p.2)
  | _ => .error ("duplicate field `" ++ k ++ "`")

/-- Expect a JSON string. -/
def asString : Json → Except String String
  | .str s => .ok s
  | _ => .error "invalid type: expected a string"

/-- Model of the derived `Deserialize` of `OciConfig`:  `architecture` and
`os` are mandatory strings, `variant` defaults to `None` when absent and
also accepts `null` (it is an `Option<String>`). -/
def from_json_OciConfig (j : Json) : Except String OciConfig :=
  match j with
  | .obj fields =>
    (match getField fields "architecture" with
     | .error e => .error e
     | .ok none => .error "missing field `architecture`"
     | .ok (some ja) =>
       match asString ja with
       | .error e => .error e
       | .ok architecture =>
         match getField fields "os" with
         | .error e => .error e
         | .ok none => .error "missing field `os`"
         | .ok (some jo) =>
           match asString jo with
           | .error e => .error e
           | .ok os =>
             match getField fields "variant" with
             | .error e => .error e
             | .ok none => .ok ⟨architecture, os, none⟩
             | .ok (some .null) => .ok ⟨architecture, os, none⟩
             | .ok (some (.str v)) => .ok ⟨architecture, os, some v⟩
             | .ok (some _) => .error "invalid type: expected string or null")
  | _ => .error "invalid type: expected struct OciConfig"

/-- Model of the derived `Deserialize` of `OciManifestConfigRef`. -/
def from_json_OciManifestConfigRef (j : Json) : Except String OciManifestConfigRef :=
  match j with
  | .obj fields =>
    (match getField fields "digest" with
     | .error e => .error e
     | .ok none => .error "missing field `digest`"
     | .ok (some jd) =>
       match asString jd with
       | .error e => .error e
       | .ok digest => .ok ⟨digest⟩)
  | _ => .error "invalid type: expected struct OciManifestConfigRef"

/-- Model of the derived `Deserialize` of `OciManifest`. -/
def from_json_OciManifest (j : Json) : Except String OciManifest :=
  match j with
  | .obj fields =>
    (match getField fields "config" with
     | .error e => .error e
     | .ok none => .error "missing field `config`"
     | .ok (some jc) =>
       match from_json_OciManifestConfigRef jc with
       | .error e => .error e
       | .ok config => .ok ⟨config⟩)
  | _ => .error "invalid type: expected struct OciManifest"

/-- Model of `serde_json::from_slice::<OciManifest>`. -/
def from_slice_OciManifest (bs : List Nat) : Except String OciManifest :=
  match json_from_slice bs with
  | none => .error "failed to parse JSON"
  | some j => from_json_OciManifest j

/-- Model of `serde_json::from_slice::<OciConfig>`. -/
def from_slice_OciConfig (bs : List Nat) : Except String OciConfig :=
  match json_from_slice bs with
  | none => .error "failed to parse JSON"
  | some j => from_json_OciConfig j

/-! ## The serialized structures of `src/artifact.rs` -/

/-- Rust `struct OciManifestListPlatform`, with
`#[serde(skip_serializing_if = "Option::is_none")]` on `variant`. -/
structure OciManifestListPlatform where
  architecture : String
  os : String
  variant : Option String
deriving DecidableEq

/-- Rust `struct OciManifestListManifest`. -/
structure OciManifestListManifest where
  media_type : String
  digest : String
  size : Nat
  platform : OciManifestListPlatform
deriving DecidableEq

/-- Rust `struct OciManifestList`. -/
structure OciManifestList where
  schema_version : Nat
  media_type : String
  manifests : List OciManifestListManifest
deriving DecidableEq

/-- The constant `MANIFEST_LIST_MIME` of `src/artifact.rs`. -/
def MANIFEST_LIST_MIME : String := "application/vnd.oci.image.index.v1+json"

/-- JSON string escaping as performed by `serde_json`. -/
def escapeChar (c : Char) : List Char :=
  if c = '"' then ['\\', '"']
  else if c = '\\' then ['\\', '\\']
  else if c = Char.ofNat 8 then ['\\', 'b']
  else if c = '\t' then ['\\', 't']
  else if c = '\n' then ['\\', 'n']
  else if c = Char.ofNat 12 then ['\\', 'f']
  else if c = '\r' then ['\\', 'r']
  else if c.toNat < 32 then ['\\', 'u', '0', '0', hexDigit (c.toNat / 16), hexDigit (c.toNat % 16)]
  else [c]

/-- A JSON string literal for `s`. -/
def jstr (s : String) : String :=
  "\"" ++ String.mk (s.toList.flatMap escapeChar) ++ "\""

/-- Serialization of `OciManifestListPlatform` (camelCase field names, in
declaration order; `variant` omitted when `None`). -/
def serialize_platform (p : OciManifestListPlatform) : String :=
  "\x7b\"architecture\":" ++ jstr p.architecture ++ ",\"os\":" ++ jstr p.os ++
  (match p.variant with
   | none => ""
   | some v => ",\"variant\":" ++ jstr v) ++ "\x7d"

/-- Serialization of one `OciManifestListManifest`. -/
def serialize_manifest_entry (m : OciManifestListManifest) : String :=
  "\x7b\"mediaType\":" ++ jstr m.media_type ++ ",\"digest\":" ++ jstr m.digest ++
  ",\"size\":" ++ Nat.repr m.size ++ ",\"platform\":" ++ serialize_platform m.platform ++ "\x7d"

/-- Comma-join. -/
def commaSep : List String → String
  | [] => ""
  | [s] => s
  | s :: rest@(_ :: _) => s ++ "," ++ commaSep rest

/-- Serialization of `OciManifestList`. -/
def serialize_manifest_list (ml : OciManifestList) : String :=
  "\x7b\"schemaVersion\":" ++ Nat.repr ml.schema_version ++ ",\"mediaType\":" ++ jstr ml.media_type ++
  ",\"manifests\":[" ++ commaSep (ml.manifests.map serialize_manifest_entry) ++ "]\x7d"

/-- Model of `serde_json::to_vec(&OciManifestList { .. })`. -/
def to_vec_manifest_list (ml : OciManifestList) : List Nat :=
  strToBytes (serialize_manifest_list ml)

/-! ## Network model

A registry request is a GET of a URL or a PUT of a body with a
`Content-Type` header.  The network is a function from requests to
responses; a transport failure (DNS, TLS, timeout) is the `error` case.
Every operation of the embedded program returns its `anyhow::Result`
together with the ordered list of requests it issued. -/

/-- One HTTP request issued by the program. -/
inductive Request where
  | get (url : String) : Request
  | put (url : String) (contentType : String) (body : List Nat) : Request
deriving DecidableEq

/-- One HTTP response: reqwest's status (success flag and display text),
the `Content-Type` response header, and the body bytes. -/
structure Response where
  success : Bool
  statusText : String
  contentType : Option String
  body : List Nat
deriving DecidableEq

/-- The network: deterministic responses, `error` for transport failure. -/
def Net : Type := Request → Except String Response

/-- Result-with-trace of one embedded operation. -/
def M (α : Type) : Type := Except String α × List Request

/-- The manifests endpoint URL, as formatted in `src/artifact.rs`. -/
def manifests_url (region repo name reference : String) : String :=
  "https://" ++ region ++ "-docker.pkg.dev/v2/" ++ repo ++ "/" ++ name ++ "/manifests/" ++ reference

/-- The blobs endpoint URL, as formatted in `src/artifact.rs`. -/
def blobs_url (region repo name digest : String) : String :=
  "https://" ++ region ++ "-docker.pkg.dev/v2/" ++ repo ++ "/" ++ name ++ "/blobs/" ++ digest

/-- Model of `get_bytes` in `src/artifact.rs`: send the request; on a
success status return the body bytes; otherwise fail with the body decoded
as text when possible, else with a generic message naming the status. -/
def get_bytes (net : Net) (req : Request) : M (List Nat) :=
  match net req with
  | .error e => (.error e, [req])
  | .ok res =>
    if res.success then (.ok res.body, [req])
    else
      match string_from_utf8 res.body with
      | some err_str => (.error err_str, [req])
      | none => (.error ("failed to retrieve error for " ++ res.statusText), [req])

/-- Rust `struct TaggedImage { repo: Option<String>, name, tag }`. -/
structure TaggedImage where
  repo : Option String
  name : String
  tag : String
deriving DecidableEq

/-- Rust `struct Item { sources, targets }`. -/
structure Item where
  sources : List TaggedImage
  targets : List TaggedImage
deriving DecidableEq

/-- Rust `struct Manifests { repo: Option<String>, items }`. -/
structure Manifests where
  repo : Option String
  items : List Item
deriving DecidableEq

/-- The fixed media type of replicated manifests and of index entries. -/
def OCI_MANIFEST_MIME : String := "application/vnd.oci.image.manifest.v1+json"

/-- The replication loop of `push_manifest` (`for target in targets`): for
every target whose resolved repository or name differs from the source's,
PUT the manifest bytes, digest-addressed, with the fixed OCI manifest
content type. -/
def replicate_targets (net : Net) (region : String) (repo : Option String)
    (src_repo src_name manifest_digest : String) (manifest_raw : List Nat) :
    List TaggedImage → M Unit
  | [] => (.ok (), [])
  | target :: rest =>
    match target.repo.or repo with
    | none => (.error "target repo not set", [])
    | some tar_repo =>
      if tar_repo ≠ src_repo ∨ target.name ≠ src_name then
        match get_bytes net (.put (manifests_url region tar_repo target.name manifest_digest)
            OCI_MANIFEST_MIME manifest_raw) with
        | (.error e, t) => (.error e, t)
        | (.ok _, t) =>
          match replicate_targets net region repo src_repo src_name manifest_digest manifest_raw rest with
          | (r, t2) => (r, t ++ t2)
      else replicate_targets net region repo src_repo src_name manifest_digest manifest_raw rest

/-- The body of the task `push_manifest` spawns per source: fetch the
manifest by tag, recompute its digest, fetch the config blob by the digest
the manifest declares, verify the blob's recomputed digest, resolve the
platform, replicate the manifest to differing targets, and produce the
index entry. -/
def push_manifest_source (net : Net) (region : String) (repo : Option String)
    (targets : List TaggedImage) (ti : TaggedImage) : M OciManifestListManifest :=
  match ti.repo.or repo with
  | none => (.error "source repo not set", [])
  | some src_repo =>
    match get_bytes net (.get (manifests_url region src_repo ti.name ti.tag)) with
    | (.error e, t1) => (.error e, t1)
    | (.ok manifest_raw, t1) =>
      match from_slice_OciManifest manifest_raw with
      | .error e => (.error e, t1)
      | .ok manifest =>
        match get_bytes net (.get (blobs_url region src_repo ti.name manifest.config.digest)) with
        | (.error e, t2) => (.error e, t1 ++ t2)
        | (.ok config_raw, t2) =>
          if calc_digest config_raw = manifest.config.digest then
            match from_slice_OciConfig config_raw with
            | .error e => (.error e, t1 ++ t2)
            | .ok config =>
              match replicate_targets net region repo src_repo ti.name
                  (calc_digest manifest_raw) manifest_raw targets with
              | (.error e, t3) => (.error e, t1 ++ t2 ++ t3)
              | (.ok _, t3) =>
                (.ok { media_type := OCI_MANIFEST_MIME,
                       digest := calc_digest manifest_raw,
                       size := manifest_raw.length,
                       platform := { architecture := config.architecture,
                                     os := config.os,
                                     variant := config.variant } },
                 t1 ++ t2 ++ t3)
          else
            (.error ("config digest does not match, blob was supposedly '" ++
                     manifest.config.digest ++ "', but was calculated as '" ++
                     calc_digest config_raw ++ "'"),
             t1 ++ t2)

/-- Model of `collect::<anyhow::Result<Vec<_>>>()`: the values in order, or
the first error encountered. -/
def collect_results {α : Type} : List (Except String α) → Except String (List α)
  | [] => .ok []
  | .error e :: _ => .error e
  | .ok a :: rest => (collect_results rest).map (a :: ·)

/-- The publish loop of `push_manifest`: PUT the index document under every
target's tag with the index content type. -/
def publish_targets (net : Net) (region : String) (repo : Option String)
    (manifest_list : List Nat) : List TaggedImage → M Unit
  | [] => (.ok (), [])
  | target :: rest =>
    match target.repo.or repo with
    | none => (.error "target repo not set", [])
    | some tar_repo =>
      match get_bytes net (.put (manifests_url region tar_repo target.name target.tag)
          MANIFEST_LIST_MIME manifest_list) with
      | (.error e, t) => (.error e, t)
      | (.ok _, t) =>
        match publish_targets net region repo manifest_list rest with
        | (r, t2) => (r, t ++ t2)

/-- Model of `push_manifest`: process every source (the scope joins all
spawned source tasks, in spawn order, before the collect), then serialize
the index with `schemaVersion` 2 and the index media type, then publish it
to every target.  The trace is every source task's requests followed by the
publish requests. -/
def push_manifest (net : Net) (region : String) (repo : Option String)
    (sources : List TaggedImage) (targets : List TaggedImage) : M Unit :=
  match collect_results ((sources.map (push_manifest_source net region repo targets)).map Prod.fst) with
  | .error e =>
    (.error e, ((sources.map (push_manifest_source net region repo targets)).map Prod.snd).flatten)
  | .ok manifests =>
    match publish_targets net region repo
        (to_vec_manifest_list
          { schema_version := 2, media_type := MANIFEST_LIST_MIME, manifests := manifests })
        targets with
    | (r, t2) =>
      (r, ((sources.map (push_manifest_source net region repo targets)).map Prod.snd).flatten ++ t2)

/-- Display text of `reqwest::Response::error_for_status`: the error is
built from the HTTP status and the URL; the response body is not read. -/
def error_for_status_msg (statusText url : String) : String :=
  "HTTP status error (" ++ statusText ++ ") for url (" ++ url ++ ")"

/-- Model of `add_tag`: resolve both repositories, GET the source manifest
by tag, take the declared `Content-Type` header, fail on a non-success
status via `error_for_status`, then PUT the same bytes with the same
content type under the target's tag. -/
def add_tag (net : Net) (region : String) (repo : Option String)
    (source target : TaggedImage) : M Unit :=
  match source.repo.or repo with
  | none => (.error "source repo not set", [])
  | some src_repo =>
    match target.repo.or repo with
    | none => (.error "target repo not set", [])
    | some tar_repo =>
      match net (.get (manifests_url region src_repo source.name source.tag)) with
      | .error e => (.error e, [.get (manifests_url region src_repo source.name source.tag)])
      | .ok resp =>
        match resp.contentType with
        | none => (.error "couldn't extract content type",
                   [.get (manifests_url region src_repo source.name source.tag)])
        | some content_type =>
          if resp.success then
            match get_bytes net (.put (manifests_url region tar_repo target.name target.tag)
                content_type resp.body) with
            | (.error e, t) => (.error e, .get (manifests_url region src_repo source.name source.tag) :: t)
            | (.ok _, t) => (.ok (), .get (manifests_url region src_repo source.name source.tag) :: t)
          else (.error (error_for_status_msg resp.statusText
                  (manifests_url region src_repo source.name source.tag)),
                [.get (manifests_url region src_repo source.name source.tag)])

/-- The task `run` spawns per item: with exactly one source the item is
retagged via `add_tag` applied to the popped (last) source and the popped
(last) target; otherwise the whole source and target lists go to
`push_manifest`.  `Vec::pop().unwrap()` on an empty vector panics. -/
def run_item (net : Net) (region : String) (repo : Option String) (tp : Item) : M Unit :=
  if tp.sources.length = 1 then
    match tp.sources.getLast?, tp.targets.getLast? with
    | some s, some t => add_tag net region repo s t
    | _, _ => (.error "panicked: called `Option::unwrap()` on a `None` value", [])
  else push_manifest net region repo tp.sources tp.targets

/-- Model of the orchestrating part of `run` (after the job has been read
from stdin and parsed): one unit of work per (region, item), all joined,
outcomes in dispatch order, and the overall result collected with the
first-error `collect`. -/
def run (net : Net) (regions : List String) (to_push : Manifests) : M Unit :=
  let units := regions.flatMap (fun region =>
    to_push.items.map (fun tp => run_item net region to_push.repo tp))
  (match collect_results (units.map Prod.fst) with
   | .error e => .error e
   | .ok _ => .ok (),
   (units.map Prod.snd).flatten)

/-- Replace the `Content-Type` response header of every response of a
network by an arbitrary function of the request, leaving status and body
unchanged.  Used to state that a code path never reads the declared
content type. -/
def withCT (f : Request → Option String) (net : Net) : Net :=
  fun req =>
    match net req with
    | .error e => .error e
    | .ok resp => .ok ⟨resp.success, resp.statusText, f req, resp.body⟩

/-! ## Concrete scenarios used by witnesses and counterexamples -/

/-- A config blob: `{"architecture":"amd64","os":"linux"}`. -/
def w_cfg : List Nat := strToBytes "\x7b\"architecture\":\"amd64\",\"os\":\"linux\"\x7d"

/-- A manifest whose declared config digest is the true digest of `w_cfg`. -/
def w_man : List Nat :=
  strToBytes ("\x7b\"config\":\x7b\"digest\":\"" ++ calc_digest w_cfg ++ "\"\x7d\x7d")

def w_src : TaggedImage := ⟨some "srepo", "svc", "v1"⟩

def w_tar1 : TaggedImage := ⟨some "trepo", "svc", "stable"⟩

def w_tar2 : TaggedImage := ⟨some "srepo", "svc", "stable"⟩

def w_targets : List TaggedImage := [w_tar1, w_tar2]

/-- A registry holding `w_man` and `w_cfg`, accepting every PUT. -/
def w_net : Net := fun req =>
  match req with
  | .get u =>
    if u = manifests_url "eu" "srepo" "svc" "v1" then
      .ok ⟨true, "200 OK", some "mt", w_man⟩
    else if u = blobs_url "eu" "srepo" "svc" (calc_digest w_cfg) then
      .ok ⟨true, "200 OK", none, w_cfg⟩
    else .error "unexpected request"
  | .put _ _ _ => .ok ⟨true, "201 Created", none, []⟩

/-- The index entry the pipeline builds for `w_src` under `w_net`. -/
def w_entry : OciManifestListManifest :=
  ⟨OCI_MANIFEST_MIME, calc_digest w_man, w_man.length, ⟨"amd64", "linux", none⟩⟩

/-- A manifest declaring an all-zero config digest that no blob can have. -/
def c1_man : List Nat :=
  strToBytes ("\x7b\"config\":\x7b\"digest\":\"sha256:" ++
    String.mk (List.replicate 64 '0') ++ "\"\x7d\x7d")

/-- A registry whose config blob does not match the digest `c1_man` declares. -/
def c1_net : Net := fun req =>
  match req with
  | .get u =>
    if u = manifests_url "eu" "sr" "svc" "v1" then .ok ⟨true, "200 OK", none, c1_man⟩
    else if u = blobs_url "eu" "sr" "svc"
        ("sha256:" ++ String.mk (List.replicate 64 '0')) then
      .ok ⟨true, "200 OK", none, w_cfg⟩
    else .error "unexpected request"
  | .put _ _ _ => .ok ⟨true, "201 Created", none, []⟩

def c2_src_url : String := manifests_url "eu" "r" "svc" "v1"

def c2_put_url : String := manifests_url "eu" "r2" "svc" "prod2"

/-- A registry for the retag scenario: the source manifest has a declared
(Docker) content type, and the PUT of its bytes to the last target is
accepted. -/
def c2_net : Net := fun req =>
  if req = .get c2_src_url then
    .ok ⟨true, "200 OK", some "application/vnd.docker.distribution.manifest.v2+json",
         strToBytes "MANIFEST-BYTES"⟩
  else if req = .put c2_put_url "application/vnd.docker.distribution.manifest.v2+json"
      (strToBytes "MANIFEST-BYTES") then
    .ok ⟨true, "201 Created", none, []⟩
  else .error "unexpected request"

/-- One source, two targets: the retag path should reach both targets. -/
def c2_item : Item := ⟨[⟨some "r", "svc", "v1"⟩], [⟨some "r1", "svc", "prod1"⟩, ⟨some "r2", "svc", "prod2"⟩]⟩

/-- A network that accepts everything. -/
def ok_net : Net := fun _ => .ok ⟨true, "200 OK", none, []⟩

/-- An item with zero sources and one target. -/
def c4_item : Item := ⟨[], [⟨some "tr", "app", "latest"⟩]⟩

/-- A network that always fails at the transport level. -/
def refused_net : Net := fun _ => .error "connection refused"

/-- An item whose sources have no repository (and the job has no default). -/
def c5_item1 : Item := ⟨[⟨none, "a", "t"⟩, ⟨none, "a", "t"⟩], []⟩

/-- An item whose sources resolve but whose fetches fail in transport. -/
def c5_item2 : Item := ⟨[⟨some "sr", "b", "t"⟩, ⟨some "sr", "b", "t"⟩], []⟩

def c5_job : Manifests := ⟨none, [c5_item1, c5_item2]⟩

def c6_url : String := manifests_url "eu" "r" "svc" "v1"

/-- A registry returning a textual error body with a failure status and a
declared content type, for the retag-path fetch. -/
def c6_net : Net := fun req =>
  if req = .get c6_url then
    .ok ⟨false, "403 Forbidden", some "text/plain", strToBytes "access denied"⟩
  else .error "unexpected request"

/-! ## Lemmas about the digest calculator -/

theorem mem_be4_lt (w : Nat) : ∀ b ∈ be4 w, b < 256 := by
  intro b hb
  simp only [be4, List.mem_cons, List.not_mem_nil, or_false] at hb
  rcases hb with h | h | h | h <;> subst h <;> exact Nat.mod_lt _ (by norm_num)

theorem sha256Bytes_length (st : Sha256State) : (sha256Bytes st).length = 32 := by
  simp [sha256Bytes, be4]

theorem mem_sha256Bytes_lt (st : Sha256State) : ∀ b ∈ sha256Bytes st, b < 256 := by
  intro b hb
  simp only [sha256Bytes, List.mem_append] at hb
  rcases hb with ((((((h | h) | h) | h) | h) | h) | h) | h <;> exact mem_be4_lt _ _ h

theorem sha256_length (msg : List Nat) : (sha256 msg).length = 32 :=
  sha256Bytes_length _

theorem mem_sha256_lt (msg : List Nat) : ∀ b ∈ sha256 msg, b < 256 :=
  mem_sha256Bytes_lt _

theorem isLowerHexDigit_hexDigit (n : Nat) (h : n < 16) :
    isLowerHexDigit (hexDigit n) = true := by
  interval_cases n <;> decide

theorem byteToHex_all (b : Nat) (h : b < 256) :
    (byteToHex b).all isLowerHexDigit = true := by
  simp only [byteToHex, List.all_cons, List.all_nil, Bool.and_true, Bool.and_eq_true]
  exact ⟨isLowerHexDigit_hexDigit _ ((Nat.div_lt_iff_lt_mul (by norm_num)).2 h),
         isLowerHexDigit_hexDigit _ (Nat.mod_lt _ (by norm_num))⟩

theorem hex_flatMap_length (l : List Nat) : (l.flatMap byteToHex).length = 2 * l.length := by
  induction l with
  | nil => rfl
  | cons b rest ih =>
    simp only [List.flatMap_cons, List.length_append, List.length_cons, ih, byteToHex,
      List.length_nil]
    omega

theorem hex_flatMap_all (l : List Nat) (h : ∀ b ∈ l, b < 256) :
    (l.flatMap byteToHex).all isLowerHexDigit = true := by
  induction l with
  | nil => rfl
  | cons b rest ih =>
    simp only [List.flatMap_cons, List.all_append, Bool.and_eq_true]
    exact ⟨byteToHex_all b (h b (List.mem_cons_self _ _)),
           ih (fun x hx => h x (List.mem_cons_of_mem _ hx))⟩

/-- C8: the digest calculator is a pure, deterministic, total function: on
every byte sequence it yields `sha256:` followed by exactly 64 lowercase
hexadecimal characters, and equal inputs yield equal outputs. -/
theorem calc_digest_spec (data data' : List Nat) (h : data = data') :
    calc_digest data = calc_digest data' ∧
    ∃ hx : List Char, calc_digest data = "sha256:" ++ String.mk hx ∧
      hx.length = 64 ∧ hx.all isLowerHexDigit = true := by
  subst h
  refine ⟨rfl, (sha256 data).flatMap byteToHex, rfl, ?_, ?_⟩
  · rw [hex_flatMap_length, sha256_length]
  · exact hex_flatMap_all _ (mem_sha256_lt data)

/-- Witness for C8 at the one-byte input `[97]`. -/
theorem calc_digest_spec_witness :
    calc_digest [97] = calc_digest [97] ∧
    ∃ hx : List Char, calc_digest [97] = "sha256:" ++ String.mk hx ∧
      hx.length = 64 ∧ hx.all isLowerHexDigit = true :=
  calc_digest_spec [97] [97] rfl

/-! ## Lemmas about the fetcher -/

theorem get_bytes_snd (net : Net) (req : Request) : (get_bytes net req).snd = [req] := by
  unfold get_bytes
  cases net req with
  | error e => rfl
  | ok res =>
    cases hs : res.success with
    | true => simp [hs]
    | false => cases hsf : string_from_utf8 res.body <;> simp [hs, hsf]

theorem get_bytes_ok (net : Net) (req : Request) (resp : Response)
    (h : net req = .ok resp) (hs : resp.success = true) :
    get_bytes net req = (.ok resp.body, [req]) := by
  unfold get_bytes
  rw [h]
  simp [hs]

theorem get_bytes_ok_inv (net : Net) (req : Request) (bs : List Nat) (t : List Request)
    (h : get_bytes net req = (.ok bs, t)) :
    ∃ resp, net req = .ok resp ∧ resp.success = true ∧ resp.body = bs ∧ t = [req] := by
  unfold get_bytes at h
  split at h
  next e heq => exact absurd (congrArg Prod.fst h) (fun hh => Except.noConfusion hh)
  next resp heq =>
    split at h
    next hs =>
      exact ⟨resp, heq, hs, Except.ok.inj (congrArg Prod.fst h), (congrArg Prod.snd h).symm⟩
    next hs =>
      split at h <;> exact absurd (congrArg Prod.fst h) (fun hh => Except.noConfusion hh)

/-- C6 (amended): every fetch made through the shared `get_bytes` helper
issues exactly one request (no retry) and returns exactly the received
bytes on a success status, and otherwise fails — never both — with the
response body as the error message when that body is valid text, else with
a generic message naming the status; the retag path's source-manifest
fetch does not go through this helper and fails with a status-derived
message instead. -/
theorem get_bytes_fetch_spec (net : Net) (req : Request) (resp : Response)
    (h : net req = .ok resp) :
    (get_bytes net req).snd = [req] ∧
    (resp.success = true → get_bytes net req = (.ok resp.body, [req])) ∧
    (resp.success = false →
      (∀ s, string_from_utf8 resp.body = some s → get_bytes net req = (.error s, [req])) ∧
      (string_from_utf8 resp.body = none →
        get_bytes net req = (.error ("failed to retrieve error for " ++ resp.statusText), [req]))) := by
  refine ⟨get_bytes_snd net req, fun hs => get_bytes_ok net req resp h hs, fun hs => ⟨?_, ?_⟩⟩
  · intro s hsf
    unfold get_bytes
    rw [h]
    simp [hs, hsf]
  · intro hsf
    unfold get_bytes
    rw [h]
    simp [hs, hsf]

/-- Witness for C6: a success-status fetch through `get_bytes` returns the
received bytes and issues exactly one request. -/
theorem get_bytes_fetch_spec_witness :
    get_bytes ok_net (.get "u") = (.ok [], [.get "u"]) :=
  (get_bytes_fetch_spec ok_net (.get "u") ⟨true, "200 OK", none, []⟩ rfl).2.1 rfl

/-- Counterexample to C6 as stated: the retag path's source-manifest fetch
(which does not use `get_bytes`) fails on a non-success status with a
status-derived message even though the response body is valid text, so not
every registry fetch reports the response body. -/
theorem add_tag_error_not_body :
    add_tag c6_net "eu" none ⟨some "r", "svc", "v1"⟩ ⟨some "r", "svc", "v2"⟩ =
      (.error (error_for_status_msg "403 Forbidden" c6_url), [.get c6_url]) ∧
    string_from_utf8 (strToBytes "access denied") = some "access denied" ∧
    error_for_status_msg "403 Forbidden" c6_url ≠ "access denied" := by
  refine ⟨rfl, by decide, by decide⟩

/-! ## The retag path -/

theorem add_tag_ok (net : Net) (region : String) (repo : Option String)
    (source target : TaggedImage) (src_repo tar_repo ct : String) (resp put_resp : Response)
    (h1 : source.repo.or repo = some src_repo)
    (h2 : target.repo.or repo = some tar_repo)
    (h3 : net (.get (manifests_url region src_repo source.name source.tag)) = .ok resp)
    (h4 : resp.contentType = some ct)
    (h5 : resp.success = true)
    (h6 : net (.put (manifests_url region tar_repo target.name target.tag) ct resp.body) = .ok put_resp)
    (h7 : put_resp.success = true) :
    add_tag net region repo source target =
      (.ok (), [.get (manifests_url region src_repo source.name source.tag),
                .put (manifests_url region tar_repo target.name target.tag) ct resp.body]) := by
  unfold add_tag
  rw [h1, h2]
  simp [h3, h4, h5, get_bytes_ok net _ put_resp h6 h7]

/-- C2 (amended): in the retag path (exactly one source) the source manifest
is fetched by tag together with its declared content type, and those exact
bytes are published with that unchanged content type — but only under the
tag of the item's LAST target (the popped element); every other target of
the item is skipped. -/
theorem run_item_retag_last_target (net : Net) (region : String) (repo : Option String)
    (s t : TaggedImage) (ts : List TaggedImage) (src_repo tar_repo ct : String)
    (resp put_resp : Response)
    (hlast : ts.getLast? = some t)
    (h1 : s.repo.or repo = some src_repo)
    (h2 : t.repo.or repo = some tar_repo)
    (h3 : net (.get (manifests_url region src_repo s.name s.tag)) = .ok resp)
    (h4 : resp.contentType = some ct)
    (h5 : resp.success = true)
    (h6 : net (.put (manifests_url region tar_repo t.name t.tag) ct resp.body) = .ok put_resp)
    (h7 : put_resp.success = true) :
    run_item net region repo ⟨[s], ts⟩ =
      (.ok (), [.get (manifests_url region src_repo s.name s.tag),
                .put (manifests_url region tar_repo t.name t.tag) ct resp.body]) := by
  have hdisp : run_item net region repo ⟨[s], ts⟩ = add_tag net region repo s t := by
    simp [run_item, hlast]
  rw [hdisp]
  exact add_tag_ok net region repo s t src_repo tar_repo ct resp put_resp h1 h2 h3 h4 h5 h6 h7

/-- Witness for C2 (amended) on the concrete retag scenario. -/
theorem run_item_retag_last_target_witness :
    run_item c2_net "eu" none c2_item =
      (.ok (), [.get (manifests_url "eu" "r" "svc" "v1"),
                .put (manifests_url "eu" "r2" "svc" "prod2")
                  "application/vnd.docker.distribution.manifest.v2+json"
                  (strToBytes "MANIFEST-BYTES")]) :=
  run_item_retag_last_target c2_net "eu" none ⟨some "r", "svc", "v1"⟩ ⟨some "r2", "svc", "prod2"⟩
    [⟨some "r1", "svc", "prod1"⟩, ⟨some "r2", "svc", "prod2"⟩] "r" "r2"
    "application/vnd.docker.distribution.manifest.v2+json"
    ⟨true, "200 OK", some "application/vnd.docker.distribution.manifest.v2+json",
      strToBytes "MANIFEST-BYTES"⟩
    ⟨true, "201 Created", none, []⟩
    rfl rfl rfl (by decide) rfl rfl (by decide) rfl

/-- Counterexample to C2 as stated: with one source and two targets the
whole retag run issues no request at all for the first target — only the
last target is published (its URL differs from every URL in the trace). -/
theorem run_item_retag_skips_target :
    run_item c2_net "eu" none c2_item =
      (.ok (), [.get c2_src_url,
                .put c2_put_url "application/vnd.docker.distribution.manifest.v2+json"
                  (strToBytes "MANIFEST-BYTES")]) ∧
    manifests_url "eu" "r1" "svc" "prod1" ≠ c2_src_url ∧
    manifests_url "eu" "r1" "svc" "prod1" ≠ c2_put_url := by
  refine ⟨rfl, by decide, by decide⟩

/-! ## Configuration errors -/

/-- C4 (amended): a source coordinate with neither an explicit repository
nor a job-level default fails with the configuration error before any
network request is issued for that source, and this failure does not block
a sibling source's processing in the same item: the sibling's full request
trace still occurs while the item's result is the configuration error.
Items with zero sources or zero targets are not rejected. -/
theorem missing_repo_fails_before_network (net : Net) (region : String)
    (repo : Option String) (targets : List TaggedImage) (s1 s2 : TaggedImage)
    (h : s1.repo.or repo = none) :
    push_manifest_source net region repo targets s1 = (.error "source repo not set", []) ∧
    push_manifest net region repo [s1, s2] targets =
      (.error "source repo not set", (push_manifest_source net region repo targets s2).snd) := by
  have hps1 : push_manifest_source net region repo targets s1 = (.error "source repo not set", []) := by
    unfold push_manifest_source
    rw [h]
  refine ⟨hps1, ?_⟩
  simp [push_manifest, hps1, collect_results]

/-- Witness for C4 (amended): the unresolvable first source fails with no
request, and its sibling is still processed. -/
theorem missing_repo_fails_before_network_witness :
    push_manifest_source refused_net "eu" none [] ⟨none, "a", "t"⟩ =
      (.error "source repo not set", []) ∧
    push_manifest refused_net "eu" none [⟨none, "a", "t"⟩, ⟨none, "a", "t"⟩] [] =
      (.error "source repo not set",
       (push_manifest_source refused_net "eu" none [] ⟨none, "a", "t"⟩).snd) :=
  missing_repo_fails_before_network refused_net "eu" none [] ⟨none, "a", "t"⟩ ⟨none, "a", "t"⟩ rfl

/-- Counterexample to C4 as stated: an item with zero sources is not
detected as a configuration error — it takes the index path, succeeds, and
publishes an empty index to its target over the network. -/
theorem run_item_zero_sources_publishes :
    run_item ok_net "eu" none c4_item =
      (.ok (), [.put (manifests_url "eu" "tr" "app" "latest") MANIFEST_LIST_MIME
                  (to_vec_manifest_list ⟨2, MANIFEST_LIST_MIME, []⟩)]) := by
  rfl

/-! ## Orchestrator aggregation -/

theorem collect_results_ok_iff {α : Type} (l : List (Except String α)) :
    (∃ v, collect_results l = .ok v) ↔ ∀ x ∈ l, ∃ a, x = .ok a := by
  induction l with
  | nil => simp [collect_results]
  | cons x rest ih =>
    cases x with
    | error e => simp [collect_results]
    | ok a =>
      constructor
      · rintro ⟨v, hv⟩ x hx
        rcases List.mem_cons.mp hx with hx | hx
        · exact ⟨a, hx⟩
        · simp only [collect_results] at hv
          cases hc : collect_results rest with
          | error e => rw [hc] at hv; exact absurd hv (by simp [Except.map])
          | ok v' => exact (ih.mp ⟨v', hc⟩) x hx
      · intro hall
        obtain ⟨v', hv'⟩ := ih.mpr (fun x hx => hall x (List.mem_cons_of_mem _ hx))
        exact ⟨a :: v', by simp [collect_results, hv', Except.map]⟩

theorem collect_results_error_first {α : Type} (l : List (Except String α)) (e : String)
    (h : collect_results l = .error e) :
    ∃ pre post, l = pre ++ .error e :: post ∧ ∀ x ∈ pre, ∃ a, x = .ok a := by
  induction l with
  | nil => simp [collect_results] at h
  | cons x rest ih =>
    cases x with
    | error e' =>
      have he : e' = e := by simpa [collect_results] using h
      subst he
      exact ⟨[], rest, rfl, by simp⟩
    | ok a =>
      simp only [collect_results] at h
      have hr : collect_results rest = .error e := by
        cases hc : collect_results rest with
        | ok v => rw [hc] at h; exact absurd h (by simp [Except.map])
        | error e'' =>
          rw [hc] at h
          have : e'' = e := by simpa [Except.map] using h
          rw [this]
      obtain ⟨pre, post, heq, hpre⟩ := ih hr
      refine ⟨.ok a :: pre, post, by simp [heq], ?_⟩
      intro x hx
      rcases List.mem_cons.mp hx with hx | hx
      · exact ⟨a, hx⟩
      · exact hpre x hx

/-- C5 (amended): the orchestrator joins every spawned (region, item) unit,
collects one outcome per unit (their traces all occur), and the overall
result is a success exactly when every unit succeeded; on failure the
overall result carries only the first failing unit's error in dispatch
order — every unit dispatched before it succeeded — and the other units'
errors are not part of the result. -/
theorem run_aggregate (net : Net) (regions : List String) (to_push : Manifests)
    (units : List (M Unit))
    (hu : units = regions.flatMap (fun region =>
      to_push.items.map (fun tp => run_item net region to_push.repo tp))) :
    units.length = regions.length * to_push.items.length ∧
    (run net regions to_push).snd = (units.map Prod.snd).flatten ∧
    ((run net regions to_push).fst = .ok () ↔ ∀ u ∈ units, u.fst = .ok ()) ∧
    (∀ e, (run net regions to_push).fst = .error e →
      ∃ pre post, units.map Prod.fst = pre ++ .error e :: post ∧ ∀ x ∈ pre, x = .ok ()) := by
  subst hu
  refine ⟨?_, ?_, ?_, ?_⟩
  · induction regions with
    | nil => simp
    | cons r rs ih => simp [List.flatMap_cons, ih, Nat.succ_mul, Nat.add_comm]
  · simp [run]
  · simp only [run]
    cases hc : collect_results ((regions.flatMap (fun region =>
        to_push.items.map (fun tp => run_item net region to_push.repo tp))).map Prod.fst) with
    | ok v =>
      simp only []
      constructor
      · intro _ u hu'
        have := (collect_results_ok_iff _).mp ⟨v, hc⟩ u.fst (List.mem_map_of_mem _ hu')
        obtain ⟨a, ha⟩ := this
        cases a
        exact ha
      · intro _
        trivial
    | error e =>
      simp only []
      constructor
      · intro hh
        exact absurd hh (by simp)
      · intro hall
        obtain ⟨v, hv⟩ := (collect_results_ok_iff _).mpr (by
          intro x hx
          obtain ⟨u, hu', hx'⟩ := List.mem_map.mp hx
          exact ⟨(), hx' ▸ hall u hu'⟩)
        rw [hc] at hv
        exact absurd hv (by simp)
  · intro e
    simp only [run]
    cases hc : collect_results ((regions.flatMap (fun region =>
        to_push.items.map (fun tp => run_item net region to_push.repo tp))).map Prod.fst) with
    | ok v =>
      intro hh
      exact absurd hh (by simp)
    | error e' =>
      intro hh
      have he : e' = e := by simpa using hh
      subst he
      obtain ⟨pre, post, heq, hpre⟩ := collect_results_error_first _ e' hc
      refine ⟨pre, post, heq, ?_⟩
      intro x hx
      obtain ⟨a, ha⟩ := hpre x hx
      cases a
      exact ha

/-- Witness for C5 (amended) on the concrete two-item job. -/
theorem run_aggregate_witness :
    ([run_item refused_net "eu" none c5_item1, run_item refused_net "eu" none c5_item2].length =
      1 * c5_job.items.length) ∧
    (run refused_net ["eu"] c5_job).snd =
      ([run_item refused_net "eu" none c5_item1, run_item refused_net "eu" none c5_item2].map
        Prod.snd).flatten ∧
    ((run refused_net ["eu"] c5_job).fst = .ok () ↔
      ∀ u ∈ [run_item refused_net "eu" none c5_item1, run_item refused_net "eu" none c5_item2],
        u.fst = .ok ()) ∧
    (∀ e, (run refused_net ["eu"] c5_job).fst = .error e →
      ∃ pre post,
        [run_item refused_net "eu" none c5_item1, run_item refused_net "eu" none c5_item2].map
          Prod.fst = pre ++ .error e :: post ∧ ∀ x ∈ pre, x = .ok ()) := by
  have := run_aggregate refused_net ["eu"] c5_job
    [run_item refused_net "eu" none c5_item1, run_item refused_net "eu" none c5_item2] (by rfl)
  simpa using this

/-- Counterexample to C5 as stated: the second unit's distinct error is not
part of the overall result — only the first unit's error is propagated. -/
theorem run_reports_only_first_error :
    (run refused_net ["eu"] c5_job).fst = .error "source repo not set" ∧
    (run_item refused_net "eu" none c5_item2).fst = .error "connection refused" ∧
    "connection refused" ≠ "source repo not set" := by
  refine ⟨rfl, rfl, by decide⟩

/-! ## Config blob integrity -/

/-- C1: in the index path, after fetching the config blob by the digest the
source manifest declares, the blob's digest is recomputed from the received
bytes; when it differs from the declared digest the source fails with the
digest-mismatch error, produces no index entry, and issues no further
request — the blob is never used. -/
theorem digest_mismatch_fails (net : Net) (region : String) (repo : Option String)
    (targets : List TaggedImage) (ti : TaggedImage) (src_repo : String)
    (r1 r2 : Response) (manifest : OciManifest)
    (h1 : ti.repo.or repo = some src_repo)
    (h2 : net (.get (manifests_url region src_repo ti.name ti.tag)) = .ok r1)
    (h3 : r1.success = true)
    (h4 : from_slice_OciManifest r1.body = .ok manifest)
    (h5 : net (.get (blobs_url region src_repo ti.name manifest.config.digest)) = .ok r2)
    (h6 : r2.success = true)
    (h7 : calc_digest r2.body ≠ manifest.config.digest) :
    push_manifest_source net region repo targets ti =
      (.error ("config digest does not match, blob was supposedly '" ++
               manifest.config.digest ++ "', but was calculated as '" ++
               calc_digest r2.body ++ "'"),
       [.get (manifests_url region src_repo ti.name ti.tag),
        .get (blobs_url region src_repo ti.name manifest.config.digest)]) := by
  unfold push_manifest_source
  rw [h1]
  simp [get_bytes_ok net _ r1 h2 h3, h4, get_bytes_ok net _ r2 h5 h6, h7]

/-- Witness for C1: a registry whose config blob does not hash to the
digest the manifest declares makes the source fail with the mismatch
error after exactly the two GETs. -/
theorem digest_mismatch_fails_witness :
    push_manifest_source c1_net "eu" none [] ⟨some "sr", "svc", "v1"⟩ =
      (.error ("config digest does not match, blob was supposedly '" ++
               ("sha256:" ++ String.mk (List.replicate 64 '0')) ++
               "', but was calculated as '" ++ calc_digest w_cfg ++ "'"),
       [.get (manifests_url "eu" "sr" "svc" "v1"),
        .get (blobs_url "eu" "sr" "svc" ("sha256:" ++ String.mk (List.replicate 64 '0')))]) :=
  digest_mismatch_fails c1_net "eu" none [] ⟨some "sr", "svc", "v1"⟩ "sr"
    ⟨true, "200 OK", none, c1_man⟩ ⟨true, "200 OK", none, w_cfg⟩
    ⟨⟨"sha256:" ++ String.mk (List.replicate 64 '0')⟩⟩
    rfl (by decide) rfl (by decide) (by decide) rfl (by decide)

/-! ## The index path -/

theorem push_manifest_source_ok (net : Net) (region : String) (repo : Option String)
    (targets : List TaggedImage) (ti : TaggedImage) (e : OciManifestListManifest)
    (tr : List Request)
    (h : push_manifest_source net region repo targets ti = (.ok e, tr)) :
    ∃ src_repo resp,
      ti.repo.or repo = some src_repo ∧
      net (.get (manifests_url region src_repo ti.name ti.tag)) = .ok resp ∧
      resp.success = true ∧
      e.digest = calc_digest resp.body ∧
      e.size = resp.body.length ∧
      e.media_type = OCI_MANIFEST_MIME := by
  unfold push_manifest_source at h
  cases hrepo : ti.repo.or repo with
  | none =>
    rw [hrepo] at h
    dsimp only [] at h
    exact absurd (congrArg Prod.fst h) (fun hh => Except.noConfusion hh)
  | some src_repo =>
    rw [hrepo] at h
    dsimp only [] at h
    cases hg1 : get_bytes net (.get (manifests_url region src_repo ti.name ti.tag)) with
    | mk f1 t1 =>
      cases f1 with
      | error e1 =>
        rw [hg1] at h
        dsimp only [] at h
        exact absurd (congrArg Prod.fst h) (fun hh => Except.noConfusion hh)
      | ok manifest_raw =>
        rw [hg1] at h
        dsimp only [] at h
        cases hm : from_slice_OciManifest manifest_raw with
        | error e2 =>
          rw [hm] at h
          dsimp only [] at h
          exact absurd (congrArg Prod.fst h) (fun hh => Except.noConfusion hh)
        | ok manifest =>
          rw [hm] at h
          dsimp only [] at h
          cases hg2 : get_bytes net (.get (blobs_url region src_repo ti.name manifest.config.digest)) with
          | mk f2 t2 =>
            cases f2 with
            | error e3 =>
              rw [hg2] at h
              dsimp only [] at h
              exact absurd (congrArg Prod.fst h) (fun hh => Except.noConfusion hh)
            | ok config_raw =>
              rw [hg2] at h
              dsimp only [] at h
              by_cases hdig : calc_digest config_raw = manifest.config.digest
              · rw [if_pos hdig] at h
                cases hcfg : from_slice_OciConfig config_raw with
                | error e4 =>
                  rw [hcfg] at h
                  dsimp only [] at h
                  exact absurd (congrArg Prod.fst h) (fun hh => Except.noConfusion hh)
                | ok config =>
                  rw [hcfg] at h
                  dsimp only [] at h
                  cases hrep : replicate_targets net region repo src_repo ti.name
                      (calc_digest manifest_raw) manifest_raw targets with
                  | mk f3 t3 =>
                    cases f3 with
                    | error e5 =>
                      rw [hrep] at h
                      dsimp only [] at h
                      exact absurd (congrArg Prod.fst h) (fun hh => Except.noConfusion hh)
                    | ok u =>
                      rw [hrep] at h
                      dsimp only [] at h
                      obtain ⟨resp, hnet, hs, hbody, -⟩ := get_bytes_ok_inv _ _ _ _ hg1
                      have he := (Except.ok.inj (congrArg Prod.fst h)).symm
                      subst he
                      exact ⟨src_repo, resp, rfl, hnet, hs, by rw [hbody], by rw [hbody], rfl⟩
              · rw [if_neg hdig] at h
                exact absurd (congrArg Prod.fst h) (fun hh => Except.noConfusion hh)

/-- C3: for every item taking the index path whose sources all succeed, the
published document is the serialization of an index with `schemaVersion` 2
and the OCI image index media type, holding exactly one entry per source in
source order; each entry's digest is recomputed (`calc_digest`) from the raw
bytes the registry returned for that source's manifest, its size is the
byte count of those bytes, and its media type is the fixed OCI image
manifest type. -/
theorem push_manifest_index_shape (net : Net) (region : String) (repo : Option String)
    (sources targets : List TaggedImage) (manifests : List OciManifestListManifest)
    (h : collect_results ((sources.map (push_manifest_source net region repo targets)).map
      Prod.fst) = .ok manifests) :
    manifests.length = sources.length ∧
    List.Forall₂ (fun (ti : TaggedImage) (e : OciManifestListManifest) =>
      ∃ src_repo resp,
        ti.repo.or repo = some src_repo ∧
        net (.get (manifests_url region src_repo ti.name ti.tag)) = .ok resp ∧
        resp.success = true ∧
        e.digest = calc_digest resp.body ∧
        e.size = resp.body.length ∧
        e.media_type = OCI_MANIFEST_MIME) sources manifests ∧
    push_manifest net region repo sources targets =
      ((publish_targets net region repo
          (to_vec_manifest_list ⟨2, MANIFEST_LIST_MIME, manifests⟩) targets).fst,
       ((sources.map (push_manifest_source net region repo targets)).map Prod.snd).flatten ++
       (publish_targets net region repo
          (to_vec_manifest_list ⟨2, MANIFEST_LIST_MIME, manifests⟩) targets).snd) := by
  have hfa : List.Forall₂ (fun (ti : TaggedImage) (e : OciManifestListManifest) =>
      ∃ src_repo resp,
        ti.repo.or repo = some src_repo ∧
        net (.get (manifests_url region src_repo ti.name ti.tag)) = .ok resp ∧
        resp.success = true ∧
        e.digest = calc_digest resp.body ∧
        e.size = resp.body.length ∧
        e.media_type = OCI_MANIFEST_MIME) sources manifests := by
    induction sources generalizing manifests with
    | nil =>
      simp only [List.map_nil, collect_results, Except.ok.injEq] at h
      rw [← h]
      exact List.Forall₂.nil
    | cons s ss ih =>
      cases hps : push_manifest_source net region repo targets s with
      | mk fst snd =>
        rw [List.map_cons, List.map_cons, hps] at h
        cases fst with
        | error e' =>
          simp only [collect_results] at h
          exact Except.noConfusion h
        | ok a =>
          simp only [collect_results] at h
          cases hc : collect_results ((ss.map (push_manifest_source net region repo targets)).map
              Prod.fst) with
          | error e' =>
            rw [hc] at h
            dsimp only [Except.map] at h
            exact Except.noConfusion h
          | ok tl =>
            rw [hc] at h
            dsimp only [Except.map] at h
            have hm : manifests = a :: tl := (Except.ok.inj h).symm
            subst hm
            exact List.Forall₂.cons
              (push_manifest_source_ok net region repo targets s a snd hps) (ih tl hc)
  refine ⟨(hfa.length_eq).symm, hfa, ?_⟩
  unfold push_manifest
  rw [h]
  cases hp : publish_targets net region repo
      (to_vec_manifest_list ⟨2, MANIFEST_LIST_MIME, manifests⟩) targets with
  | mk r t2 => simp [hp]

/-- Witness for C3 on the concrete one-source, two-target scenario. -/
theorem push_manifest_index_shape_witness :
    ([w_entry].length = [w_src].length) ∧
    List.Forall₂ (fun (ti : TaggedImage) (e : OciManifestListManifest) =>
      ∃ src_repo resp,
        ti.repo.or (none : Option String) = some src_repo ∧
        w_net (.get (manifests_url "eu" src_repo ti.name ti.tag)) = .ok resp ∧
        resp.success = true ∧
        e.digest = calc_digest resp.body ∧
        e.size = resp.body.length ∧
        e.media_type = OCI_MANIFEST_MIME) [w_src] [w_entry] ∧
    push_manifest w_net "eu" none [w_src] w_targets =
      ((publish_targets w_net "eu" none
          (to_vec_manifest_list ⟨2, MANIFEST_LIST_MIME, [w_entry]⟩) w_targets).fst,
       (([w_src].map (push_manifest_source w_net "eu" none w_targets)).map Prod.snd).flatten ++
       (publish_targets w_net "eu" none
          (to_vec_manifest_list ⟨2, MANIFEST_LIST_MIME, [w_entry]⟩) w_targets).snd) :=
  push_manifest_index_shape w_net "eu" none [w_src] w_targets [w_entry] (by decide)

/-! ## Replication -/

theorem replicate_targets_trace (net : Net) (region : String) (repo : Option String)
    (src_repo src_name dg : String) (raw : List Nat) :
    ∀ targets : List TaggedImage,
    (∀ t ∈ targets, (t.repo.or repo).isSome = true) →
    (replicate_targets net region repo src_repo src_name dg raw targets).fst = .ok () →
    (replicate_targets net region repo src_repo src_name dg raw targets).snd =
      (targets.filter
        (fun t => decide ((t.repo.or repo).getD "" ≠ src_repo ∨ t.name ≠ src_name))).map
        (fun t => .put (manifests_url region ((t.repo.or repo).getD "") t.name dg)
          OCI_MANIFEST_MIME raw) := by
  intro targets
  induction targets with
  | nil => intro _ _; rfl
  | cons t rest ih =>
    intro hres hok
    obtain ⟨tar_repo, ht⟩ := Option.isSome_iff_exists.mp (hres t (List.mem_cons_self t rest))
    have hres' : ∀ x ∈ rest, (x.repo.or repo).isSome = true :=
      fun x hx => hres x (List.mem_cons_of_mem _ hx)
    have hcnd : (t.repo.or repo).getD "" = tar_repo := by rw [ht, Option.getD_some]
    unfold replicate_targets at hok ⊢
    rw [ht] at hok ⊢
    dsimp only [] at hok ⊢
    rw [List.filter_cons]
    by_cases hcond : tar_repo ≠ src_repo ∨ t.name ≠ src_name
    · rw [if_pos hcond] at hok ⊢
      cases hgb : get_bytes net (.put (manifests_url region tar_repo t.name dg)
          OCI_MANIFEST_MIME raw) with
      | mk f tt =>
        have htt : tt = [.put (manifests_url region tar_repo t.name dg) OCI_MANIFEST_MIME raw] :=
          (congrArg Prod.snd hgb).symm.trans (get_bytes_snd net _)
        cases f with
        | error e =>
          rw [hgb] at hok
          dsimp only [] at hok
          exact absurd hok (fun hh => Except.noConfusion hh)
        | ok v =>
          rw [hgb] at hok
          dsimp only [] at hok ⊢
          cases hrec : replicate_targets net region repo src_repo src_name dg raw rest with
          | mk r t2 =>
            rw [hrec] at hok
            dsimp only [] at hok ⊢
            rw [hcnd, if_pos (decide_eq_true hcond), List.map_cons]
            have ht2 : t2 = (rest.filter
                (fun x => decide ((x.repo.or repo).getD "" ≠ src_repo ∨ x.name ≠ src_name))).map
                (fun x => .put (manifests_url region ((x.repo.or repo).getD "") x.name dg)
                  OCI_MANIFEST_MIME raw) := by
              have h' := ih hres' (by rw [hrec]; exact hok)
              rw [hrec] at h'
              exact h'
            rw [htt, ht2]
            simp [hcnd]
    · rw [if_neg hcond] at hok ⊢
      rw [hcnd, if_neg (fun hh => hcond (of_decide_eq_true hh))]
      exact ih hres' hok

theorem publish_targets_put_mem (net : Net) (region : String) (repo : Option String)
    (body : List Nat) :
    ∀ (targets : List TaggedImage) (u ct : String) (b : List Nat),
    Request.put u ct b ∈ (publish_targets net region repo body targets).snd →
    ct = MANIFEST_LIST_MIME ∧ b = body := by
  intro targets
  induction targets with
  | nil => intro u ct b hm; simp [publish_targets] at hm
  | cons t rest ih =>
    intro u ct b hm
    unfold publish_targets at hm
    cases hres : t.repo.or repo with
    | none =>
      rw [hres] at hm
      dsimp only [] at hm
      simp at hm
    | some tar_repo =>
      rw [hres] at hm
      dsimp only [] at hm
      cases hgb : get_bytes net (.put (manifests_url region tar_repo t.name t.tag)
          MANIFEST_LIST_MIME body) with
      | mk f tt =>
        have htt : tt = [.put (manifests_url region tar_repo t.name t.tag) MANIFEST_LIST_MIME body] :=
          (congrArg Prod.snd hgb).symm.trans (get_bytes_snd net _)
        cases f with
        | error e =>
          rw [hgb] at hm
          dsimp only [] at hm
          rw [htt] at hm
          have heq := List.mem_singleton.mp hm
          obtain ⟨-, h2, h3⟩ := Request.put.inj heq
          exact ⟨h2, h3⟩
        | ok v =>
          rw [hgb] at hm
          dsimp only [] at hm
          cases hrec : publish_targets net region repo body rest with
          | mk r t2 =>
            rw [hrec] at hm
            dsimp only [] at hm
            rw [htt] at hm
            rcases List.mem_append.mp hm with hm | hm
            · have heq := List.mem_singleton.mp hm
              obtain ⟨-, h2, h3⟩ := Request.put.inj heq
              exact ⟨h2, h3⟩
            · exact ih u ct b (by rw [hrec]; exact hm)

/-- C7: for every (source, target) pair the source manifest bytes are
replicated verbatim by a digest-addressed PUT to the target's
repository/name exactly when the resolved target repository or the name
differs from the source's (skipped when both coincide); and the whole
request trace of `push_manifest` is every source task's requests — which
contain all replication PUTs — followed by the index-publishing requests,
each of which PUTs only the index document, so every replication request
precedes the publication of the index that references the digest. -/
theorem replication_condition_and_order :
    (∀ (net : Net) (region : String) (repo : Option String) (src_repo src_name dg : String)
       (raw : List Nat) (targets : List TaggedImage),
       (∀ t ∈ targets, (t.repo.or repo).isSome = true) →
       (replicate_targets net region repo src_repo src_name dg raw targets).fst = .ok () →
       (replicate_targets net region repo src_repo src_name dg raw targets).snd =
         (targets.filter
           (fun t => decide ((t.repo.or repo).getD "" ≠ src_repo ∨ t.name ≠ src_name))).map
           (fun t => .put (manifests_url region ((t.repo.or repo).getD "") t.name dg)
             OCI_MANIFEST_MIME raw)) ∧
    (∀ (net : Net) (region : String) (repo : Option String) (sources targets : List TaggedImage)
       (manifests : List OciManifestListManifest),
       collect_results ((sources.map (push_manifest_source net region repo targets)).map Prod.fst)
         = .ok manifests →
       (push_manifest net region repo sources targets).snd =
         ((sources.map (push_manifest_source net region repo targets)).map Prod.snd).flatten ++
         (publish_targets net region repo
           (to_vec_manifest_list ⟨2, MANIFEST_LIST_MIME, manifests⟩) targets).snd ∧
       (∀ (u ct : String) (b : List Nat),
         Request.put u ct b ∈ (publish_targets net region repo
             (to_vec_manifest_list ⟨2, MANIFEST_LIST_MIME, manifests⟩) targets).snd →
         ct = MANIFEST_LIST_MIME ∧ b = to_vec_manifest_list ⟨2, MANIFEST_LIST_MIME, manifests⟩)) := by
  refine ⟨replicate_targets_trace, ?_⟩
  intro net region repo sources targets manifests hcol
  refine ⟨?_, fun u ct b hm => publish_targets_put_mem net region repo _ targets u ct b hm⟩
  unfold push_manifest
  rw [hcol]
  cases hp : publish_targets net region repo
      (to_vec_manifest_list ⟨2, MANIFEST_LIST_MIME, manifests⟩) targets with
  | mk r t2 => simp [hp]

/-- Witness for C7 on the concrete scenario: the differing target is
replicated to, the coinciding target is skipped, and the trace decomposes
into the source phase followed by the index publications. -/
theorem replication_condition_and_order_witness :
    ((replicate_targets w_net "eu" none "srepo" "svc" (calc_digest w_man) w_man w_targets).snd =
      (w_targets.filter
        (fun t => decide ((t.repo.or (none : Option String)).getD "" ≠ "srepo" ∨ t.name ≠ "svc"))).map
        (fun t => .put (manifests_url "eu" ((t.repo.or (none : Option String)).getD "") t.name
          (calc_digest w_man)) OCI_MANIFEST_MIME w_man)) ∧
    ((push_manifest w_net "eu" none [w_src] w_targets).snd =
      (([w_src].map (push_manifest_source w_net "eu" none w_targets)).map Prod.snd).flatten ++
      (publish_targets w_net "eu" none
        (to_vec_manifest_list ⟨2, MANIFEST_LIST_MIME, [w_entry]⟩) w_targets).snd) :=
  ⟨replication_condition_and_order.1 w_net "eu" none "srepo" "svc" (calc_digest w_man) w_man
      w_targets (by decide) (by decide),
   (replication_condition_and_order.2 w_net "eu" none [w_src] w_targets [w_entry] (by decide)).1⟩

/-! ## Content type of replication -/

theorem replicate_targets_put_ct (net : Net) (region : String) (repo : Option String)
    (src_repo src_name dg : String) (raw : List Nat) :
    ∀ (targets : List TaggedImage) (u ct : String) (b : List Nat),
    Request.put u ct b ∈ (replicate_targets net region repo src_repo src_name dg raw targets).snd →
    ct = OCI_MANIFEST_MIME := by
  intro targets
  induction targets with
  | nil => intro u ct b hm; simp [replicate_targets] at hm
  | cons t rest ih =>
    intro u ct b hm
    unfold replicate_targets at hm
    cases hres : t.repo.or repo with
    | none =>
      rw [hres] at hm
      dsimp only [] at hm
      simp at hm
    | some tar_repo =>
      rw [hres] at hm
      dsimp only [] at hm
      by_cases hcond : tar_repo ≠ src_repo ∨ t.name ≠ src_name
      · rw [if_pos hcond] at hm
        cases hgb : get_bytes net (.put (manifests_url region tar_repo t.name dg)
            OCI_MANIFEST_MIME raw) with
        | mk f tt =>
          have htt : tt = [.put (manifests_url region tar_repo t.name dg) OCI_MANIFEST_MIME raw] :=
            (congrArg Prod.snd hgb).symm.trans (get_bytes_snd net _)
          cases f with
          | error e =>
            rw [hgb] at hm
            dsimp only [] at hm
            rw [htt] at hm
            exact (Request.put.inj (List.mem_singleton.mp hm)).2.1
          | ok v =>
            rw [hgb] at hm
            dsimp only [] at hm
            cases hrec : replicate_targets net region repo src_repo src_name dg raw rest with
            | mk r t2 =>
              rw [hrec] at hm
              dsimp only [] at hm
              rw [htt] at hm
              rcases List.mem_append.mp hm with hm | hm
              · exact (Request.put.inj (List.mem_singleton.mp hm)).2.1
              · exact ih u ct b (by rw [hrec]; exact hm)
      · rw [if_neg hcond] at hm
        exact ih u ct b hm

theorem push_manifest_source_put_ct (net : Net) (region : String) (repo : Option String)
    (targets : List TaggedImage) (ti : TaggedImage) (u ct : String) (b : List Nat)
    (hm : Request.put u ct b ∈ (push_manifest_source net region repo targets ti).snd) :
    ct = OCI_MANIFEST_MIME := by
  unfold push_manifest_source at hm
  cases hrepo : ti.repo.or repo with
  | none =>
    rw [hrepo] at hm
    dsimp only [] at hm
    simp at hm
  | some src_repo =>
    rw [hrepo] at hm
    dsimp only [] at hm
    cases hg1 : get_bytes net (.get (manifests_url region src_repo ti.name ti.tag)) with
    | mk f1 t1 =>
      have ht1 : t1 = [.get (manifests_url region src_repo ti.name ti.tag)] :=
        (congrArg Prod.snd hg1).symm.trans (get_bytes_snd net _)
      cases f1 with
      | error e1 =>
        rw [hg1] at hm
        dsimp only [] at hm
        rw [ht1] at hm
        exact absurd (List.mem_singleton.mp hm) (fun hh => Request.noConfusion hh)
      | ok manifest_raw =>
        rw [hg1] at hm
        dsimp only [] at hm
        cases hms : from_slice_OciManifest manifest_raw with
        | error e2 =>
          rw [hms] at hm
          dsimp only [] at hm
          rw [ht1] at hm
          exact absurd (List.mem_singleton.mp hm) (fun hh => Request.noConfusion hh)
        | ok manifest =>
          rw [hms] at hm
          dsimp only [] at hm
          cases hg2 : get_bytes net (.get (blobs_url region src_repo ti.name
              manifest.config.digest)) with
          | mk f2 t2 =>
            have ht2 : t2 = [.get (blobs_url region src_repo ti.name manifest.config.digest)] :=
              (congrArg Prod.snd hg2).symm.trans (get_bytes_snd net _)
            cases f2 with
            | error e3 =>
              rw [hg2] at hm
              dsimp only [] at hm
              rw [ht1, ht2] at hm
              rcases List.mem_append.mp hm with hm | hm <;>
                exact absurd (List.mem_singleton.mp hm) (fun hh => Request.noConfusion hh)
            | ok config_raw =>
              rw [hg2] at hm
              dsimp only [] at hm
              by_cases hdig : calc_digest config_raw = manifest.config.digest
              · rw [if_pos hdig] at hm
                cases hcfg : from_slice_OciConfig config_raw with
                | error e4 =>
                  rw [hcfg] at hm
                  dsimp only [] at hm
                  rw [ht1, ht2] at hm
                  rcases List.mem_append.mp hm with hm | hm <;>
                    exact absurd (List.mem_singleton.mp hm) (fun hh => Request.noConfusion hh)
                | ok config =>
                  rw [hcfg] at hm
                  dsimp only [] at hm
                  cases hrep : replicate_targets net region repo src_repo ti.name
                      (calc_digest manifest_raw) manifest_raw targets with
                  | mk f3 t3 =>
                    have hmem : Request.put u ct b ∈ t1 ++ t2 ++ t3 → ct = OCI_MANIFEST_MIME := by
                      intro hz
                      rw [ht1, ht2] at hz
                      rcases List.mem_append.mp hz with hz | hz
                      · rcases List.mem_append.mp hz with hz | hz <;>
                          exact absurd (List.mem_singleton.mp hz) (fun hh => Request.noConfusion hh)
                      · exact replicate_targets_put_ct net region repo src_repo ti.name
                          (calc_digest manifest_raw) manifest_raw targets u ct b
                          (by rw [hrep]; exact hz)
                    cases f3 with
                    | error e5 =>
                      rw [hrep] at hm
                      dsimp only [] at hm
                      exact hmem hm
                    | ok v =>
                      rw [hrep] at hm
                      dsimp only [] at hm
                      exact hmem hm
              · rw [if_neg hdig] at hm
                rw [ht1, ht2] at hm
                rcases List.mem_append.mp hm with hm | hm <;>
                  exact absurd (List.mem_singleton.mp hm) (fun hh => Request.noConfusion hh)

theorem get_bytes_withCT (f : Request → Option String) (net : Net) (req : Request) :
    get_bytes (withCT f net) req = get_bytes net req := by
  unfold get_bytes withCT
  cases net req with
  | error e => rfl
  | ok resp => rfl

theorem replicate_targets_withCT (f : Request → Option String) (net : Net) (region : String)
    (repo : Option String) (src_repo src_name dg : String) (raw : List Nat) :
    ∀ targets : List TaggedImage,
    replicate_targets (withCT f net) region repo src_repo src_name dg raw targets =
      replicate_targets net region repo src_repo src_name dg raw targets := by
  intro targets
  induction targets with
  | nil => rfl
  | cons t rest ih =>
    unfold replicate_targets
    simp only [get_bytes_withCT, ih]

theorem push_manifest_source_withCT (f : Request → Option String) (net : Net) (region : String)
    (repo : Option String) (targets : List TaggedImage) (ti : TaggedImage) :
    push_manifest_source (withCT f net) region repo targets ti =
      push_manifest_source net region repo targets ti := by
  unfold push_manifest_source
  simp only [get_bytes_withCT, replicate_targets_withCT]

/-- C9: every cross-repository replication PUT in the index path carries
the fixed `application/vnd.oci.image.manifest.v1+json` content type for
every network — in particular regardless of the content type the registry
declared for the fetched manifest — and the whole per-source computation is
invariant under arbitrary changes of the declared `Content-Type` header,
i.e. the declared content type is never read in this path. -/
theorem replication_content_type_fixed :
    (∀ (net : Net) (region : String) (repo : Option String) (targets : List TaggedImage)
       (ti : TaggedImage) (u ct : String) (b : List Nat),
       Request.put u ct b ∈ (push_manifest_source net region repo targets ti).snd →
       ct = OCI_MANIFEST_MIME) ∧
    (∀ (f : Request → Option String) (net : Net) (region : String) (repo : Option String)
       (targets : List TaggedImage) (ti : TaggedImage),
       push_manifest_source (withCT f net) region repo targets ti =
         push_manifest_source net region repo targets ti) :=
  ⟨fun net region repo targets ti u ct b hm =>
     push_manifest_source_put_ct net region repo targets ti u ct b hm,
   fun f net region repo targets ti =>
     push_manifest_source_withCT f net region repo targets ti⟩

/-- Witness for C9: the concrete replication PUT carries the fixed OCI
manifest content type, and overriding the declared content type with a
Docker one changes nothing. -/
theorem replication_content_type_fixed_witness :
    ("application/vnd.oci.image.manifest.v1+json" : String) = OCI_MANIFEST_MIME ∧
    push_manifest_source
        (withCT (fun _ => some "application/vnd.docker.distribution.manifest.v2+json") w_net)
        "eu" none w_targets w_src =
      push_manifest_source w_net "eu" none w_targets w_src :=
  ⟨replication_content_type_fixed.1 w_net "eu" none w_targets w_src
      (manifests_url "eu" "trepo" "svc" (calc_digest w_man))
      "application/vnd.oci.image.manifest.v1+json" w_man (by decide),
   replication_content_type_fixed.2
      (fun _ => some "application/vnd.docker.distribution.manifest.v2+json")
      w_net "eu" none w_targets w_src⟩

/-! ## The variant field -/

theorem filter_key_nil_lookup (k : String) :
    ∀ fields : List (String × Json), fields.filter (fun p => p.1 == k) = [] →
    fields.lookup k = none := by
  intro fields
  induction fields with
  | nil => intro _; rfl
  | cons q rest ih =>
    intro hf
    obtain ⟨k1, v1⟩ := q
    rw [List.filter_cons] at hf
    by_cases hk : k1 = k
    · rw [if_pos (by simp [hk])] at hf
      exact absurd hf (by simp)
    · rw [if_neg (by simp [hk])] at hf
      have hne : k ≠ k1 := fun hh => hk hh.symm
      have hkk : (k == k1) = false := by simp [hne]
      simp only [List.lookup, hkk]
      exact ih hf

theorem filter_key_single_lookup (k : String) (p : String × Json) :
    ∀ fields : List (String × Json), fields.filter (fun q => q.1 == k) = [p] →
    fields.lookup k = some p.2 := by
  intro fields
  induction fields with
  | nil => intro hf; exact absurd hf (by simp)
  | cons q rest ih =>
    intro hf
    obtain ⟨k1, v1⟩ := q
    rw [List.filter_cons] at hf
    by_cases hk : k1 = k
    · rw [if_pos (by simp [hk])] at hf
      obtain ⟨hp, -⟩ := List.cons.inj hf
      have hkk : (k == k1) = true := by simp [hk.symm]
      simp only [List.lookup, hkk]
      rw [← hp]
    · rw [if_neg (by simp [hk])] at hf
      have hne : k ≠ k1 := fun hh => hk hh.symm
      have hkk : (k == k1) = false := by simp [hne]
      simp only [List.lookup, hkk]
      exact ih hf

theorem getField_none_lookup (fields : List (String × Json)) (k : String)
    (h : getField fields k = .ok none) : fields.lookup k = none := by
  unfold getField at h
  cases hf : fields.filter (fun p => p.1 == k) with
  | nil => exact filter_key_nil_lookup k fields hf
  | cons p q =>
    rw [hf] at h
    cases q with
    | nil =>
      dsimp only [] at h
      exact absurd (Except.ok.inj h) (fun hh => Option.noConfusion hh)
    | cons p2 q2 =>
      dsimp only [] at h
      exact Except.noConfusion h

theorem getField_some_lookup (fields : List (String × Json)) (k : String) (j : Json)
    (h : getField fields k = .ok (some j)) : fields.lookup k = some j := by
  unfold getField at h
  cases hf : fields.filter (fun p => p.1 == k) with
  | nil =>
    rw [hf] at h
    dsimp only [] at h
    exact absurd (Except.ok.inj h) (fun hh => Option.noConfusion hh)
  | cons p q =>
    rw [hf] at h
    cases q with
    | nil =>
      dsimp only [] at h
      have hj : p.2 = j := Option.some.inj (Except.ok.inj h)
      rw [← hj]
      exact filter_key_single_lookup k p fields hf
    | cons p2 q2 =>
      dsimp only [] at h
      exact Except.noConfusion h

/-- C10: a config document with no `variant` field deserializes with
`variant = none` (and a present string value is carried through unchanged),
and a platform with `variant = none` serializes with the `variant` key
omitted entirely (it is not serialized as `null`), while a present variant
is emitted unchanged as a JSON string member. -/
theorem variant_absent_omitted :
    (∀ (fields : List (String × Json)) (cfg : OciConfig),
       from_json_OciConfig (.obj fields) = .ok cfg →
       (fields.lookup "variant" = none → cfg.variant = none) ∧
       (∀ v, fields.lookup "variant" = some (.str v) → cfg.variant = some v)) ∧
    (∀ a o : String, serialize_platform ⟨a, o, none⟩ =
       "\x7b\"architecture\":" ++ jstr a ++ ",\"os\":" ++ jstr o ++ "\x7d") ∧
    (∀ a o v : String, serialize_platform ⟨a, o, some v⟩ =
       "\x7b\"architecture\":" ++ jstr a ++ ",\"os\":" ++ jstr o ++
       ",\"variant\":" ++ jstr v ++ "\x7d") := by
  refine ⟨?_, ?_, ?_⟩
  · intro fields cfg h
    unfold from_json_OciConfig at h
    dsimp only [] at h
    cases ha : getField fields "architecture" with
    | error e =>
      rw [ha] at h
      dsimp only [] at h
      exact absurd h (fun hh => Except.noConfusion hh)
    | ok oa =>
      rw [ha] at h
      cases oa with
      | none =>
        dsimp only [] at h
        exact absurd h (fun hh => Except.noConfusion hh)
      | some ja =>
        dsimp only [] at h
        cases has : asString ja with
        | error e =>
          rw [has] at h
          dsimp only [] at h
          exact absurd h (fun hh => Except.noConfusion hh)
        | ok architecture =>
          rw [has] at h
          dsimp only [] at h
          cases ho : getField fields "os" with
          | error e =>
            rw [ho] at h
            dsimp only [] at h
            exact absurd h (fun hh => Except.noConfusion hh)
          | ok oo =>
            rw [ho] at h
            cases oo with
            | none =>
              dsimp only [] at h
              exact absurd h (fun hh => Except.noConfusion hh)
            | some jo =>
              dsimp only [] at h
              cases hos : asString jo with
              | error e =>
                rw [hos] at h
                dsimp only [] at h
                exact absurd h (fun hh => Except.noConfusion hh)
              | ok os_ =>
                rw [hos] at h
                dsimp only [] at h
                cases hv : getField fields "variant" with
                | error e =>
                  rw [hv] at h
                  dsimp only [] at h
                  exact absurd h (fun hh => Except.noConfusion hh)
                | ok ov =>
                  rw [hv] at h
                  cases ov with
                  | none =>
                    dsimp only [] at h
                    have hcfg := Except.ok.inj h
                    refine ⟨fun _ => by rw [← hcfg], ?_⟩
                    intro v hlook
                    rw [getField_none_lookup fields "variant" hv] at hlook
                    exact Option.noConfusion hlook
                  | some jv =>
                    cases jv with
                    | null =>
                      dsimp only [] at h
                      have hcfg := Except.ok.inj h
                      have hlk := getField_some_lookup fields "variant" .null hv
                      refine ⟨fun _ => by rw [← hcfg], ?_⟩
                      intro v hlook
                      rw [hlk] at hlook
                      exact Json.noConfusion (Option.some.inj hlook)
                    | str w =>
                      dsimp only [] at h
                      have hcfg := Except.ok.inj h
                      have hlk := getField_some_lookup fields "variant" (.str w) hv
                      constructor
                      · intro hlook
                        rw [hlk] at hlook
                        exact Option.noConfusion hlook
                      · intro v hlook
                        rw [hlk] at hlook
                        have hwv := Json.str.inj (Option.some.inj hlook)
                        rw [← hcfg]
                        dsimp only []
                        rw [hwv]
                    | bool b1 =>
                      dsimp only [] at h
                      exact absurd h (fun hh => Except.noConfusion hh)
                    | num n1 =>
                      dsimp only [] at h
                      exact absurd h (fun hh => Except.noConfusion hh)
                    | arr a1 =>
                      dsimp only [] at h
                      exact absurd h (fun hh => Except.noConfusion hh)
                    | obj o1 =>
                      dsimp only [] at h
                      exact absurd h (fun hh => Except.noConfusion hh)
  · intro a o
    simp [serialize_platform, String.append_empty]
  · intro a o v
    simp [serialize_platform, String.append_assoc]

/-- Witness for C10 on the architecture/os-only document and on
serializations with and without a variant. -/
theorem variant_absent_omitted_witness :
    (([("architecture", Json.str "amd64"), ("os", Json.str "linux")].lookup "variant" = none →
       (⟨"amd64", "linux", none⟩ : OciConfig).variant = none) ∧
     (∀ v, [("architecture", Json.str "amd64"), ("os", Json.str "linux")].lookup "variant" =
       some (.str v) → (⟨"amd64", "linux", none⟩ : OciConfig).variant = some v)) ∧
    serialize_platform ⟨"amd64", "linux", none⟩ =
      "\x7b\"architecture\":" ++ jstr "amd64" ++ ",\"os\":" ++ jstr "linux" ++ "\x7d" ∧
    serialize_platform ⟨"arm64", "linux", some "v8"⟩ =
      "\x7b\"architecture\":" ++ jstr "arm64" ++ ",\"os\":" ++ jstr "linux" ++
      ",\"variant\":" ++ jstr "v8" ++ "\x7d" :=
  ⟨variant_absent_omitted.1 [("architecture", Json.str "amd64"), ("os", Json.str "linux")]
      ⟨"amd64", "linux", none⟩ rfl,
   variant_absent_omitted.2.1 "amd64" "linux",
   variant_absent_omitted.2.2 "arm64" "linux" "v8"⟩

end Boh
